import Mathlib

/-
Shallow embedding of the probability-computation core of the calculator
(src/unnamed/part_000).  JavaScript numbers are modelled as exact rationals;
the value `Infinity` (used as an unbounded bracket upper bound) is modelled by
the dedicated constructor `XNum.inf`, and values whose numeric coercion is
`NaN` / non-finite are modelled with `Option ℚ` (`none` = not a finite number).
-/

namespace Calc

/-- A JavaScript number used as a bracket threshold: a finite rational or `+Infinity`. -/
inductive XNum where
  | num (q : ℚ)
  | inf
deriving DecidableEq, Repr

/-- `t <= x` for a finite `t` against a threshold, as JavaScript `<=` evaluates it
(`t <= Infinity` is true). -/
def xle (t : ℚ) : XNum → Bool
  | .num q => decide (t ≤ q)
  | .inf => true

/-- `x < t` for a finite `t` against a threshold (`Infinity < t` is false). -/
def xlt : XNum → ℚ → Bool
  | .num q, t => decide (q < t)
  | .inf, _ => false

/-- Strict order between two thresholds, used to state "strictly increasing max". -/
def xltx : XNum → XNum → Bool
  | .num a, .num b => decide (a < b)
  | .num _, .inf => true
  | .inf, _ => false

/-- One bracket of a scheme: a display label and an upper bound (source: objects
`{label, max}` described in the data model). -/
structure Bracket where
  label : String
  max : XNum
deriving DecidableEq, Repr

instance : Inhabited Bracket := ⟨⟨"", .inf⟩⟩

/-- The `max` threshold at position `k` of a scheme (junk `Infinity` out of range). -/
def bmax (scheme : List Bracket) (k : Nat) : XNum :=
  (scheme.getD k default).max

/-- `Array.prototype.findIndex` specialised to the predicate `t <= b.max`:
index of the first bracket whose max is `≥ t`, `none` if there is none. -/
def findBracketAux (t : ℚ) : List Bracket → Option Nat
  | [] => none
  | b :: rest => if xle t b.max then some 0 else (findBracketAux t rest).map (· + 1)

/-- Embeds `findBracket` (src/unnamed/part_000:5-8): `-1` on an empty scheme,
else the `findIndex` of the first bracket with `t <= max` (`-1` if not found). -/
def findBracket (scheme : List Bracket) (t : ℚ) : Int :=
  if scheme = [] then -1
  else
    match findBracketAux t scheme with
    | some i => (i : Int)
    | none => -1

/-- Embeds `clamp` (src/unnamed/part_000:10): `Math.max(0, Math.min(n - 1, i))`. -/
def clamp (i n : Int) : Int := max 0 (min (n - 1) i)

/-- Embeds `bracketContainsActual` (src/unnamed/part_000:12-19).  The actual is
an `Option ℚ` (`none` models a value whose `Number` coercion is not finite); the
lower bound of bracket 0 is `-Infinity`, i.e. every finite value passes it. -/
def bracketContainsActual (scheme : List Bracket) (idx : Int) (t : Option ℚ) : Bool :=
  if idx < 0 ∨ (scheme.length : Int) ≤ idx then false
  else
    match t with
    | none => false
    | some val =>
      let i := idx.toNat
      let hi := bmax scheme i
      let lowOk := if i = 0 then true else xlt (bmax scheme (i - 1)) val
      xle val hi && lowOk

/-- One adjusted row fed to the probability engine: `adjForecast` is `none` when
`+r.adjForecast` is not finite; `nWeight` is the row's normalized weight. -/
structure ARow where
  adjForecast : Option ℚ
  nWeight : ℚ
deriving DecidableEq, Repr

/-- The bleed constant of the probability engine (src/unnamed/part_000:260). -/
def bleed : ℚ := 3 / 10

/-- `out[i] += v` on a dense array: add `v` at position `i` (no-op out of range,
which never happens at the call sites). -/
def addAt (l : List ℚ) (i : Nat) (v : ℚ) : List ℚ :=
  l.set i (l.getD i 0 + v)

/-- The body of the `adjustedRows.forEach` loop of `calculateBaseProbs`
(src/unnamed/part_000:261-272): skip non-finite forecasts and unresolved
brackets, add the primary share at `clamp(b, n)`, and distribute the bleed
share to the immediate neighbours when it is positive. -/
def baseStep (scheme : List Bracket) (out : List ℚ) (r : ARow) : List ℚ :=
  match r.adjForecast with
  | none => out
  | some f =>
    let b := findBracket scheme f
    let w := r.nWeight
    if b < 0 then out
    else
      let n : Int := scheme.length
      let baseShare := (1 - bleed) * w
      let bleedShare := bleed * w
      let out1 := addAt out (clamp b n).toNat baseShare
      if 0 < bleedShare then
        if 0 ≤ b - 1 ∧ b + 1 < n then
          addAt (addAt out1 (b - 1).toNat (bleedShare / 2)) (b + 1).toNat (bleedShare / 2)
        else if 0 ≤ b - 1 then addAt out1 (b - 1).toNat bleedShare
        else if b + 1 < n then addAt out1 (b + 1).toNat bleedShare
        else addAt out1 b.toNat bleedShare
      else out1

/-- Embeds `calculateBaseProbs` (src/unnamed/part_000:255-274).  `adjustedRows`
is `none` when the caller passes a non-array value. -/
def calculateBaseProbs (adjustedRows : Option (List ARow)) (scheme : List Bracket) :
    List ℚ :=
  if scheme = [] then []
  else
    match adjustedRows with
    | none => List.replicate scheme.length 0
    | some rows => rows.foldl (baseStep scheme) (List.replicate scheme.length 0)

/-- A stored snapshot (data model §3): `actual` is `none` while no numeric
outcome is attached; `probs` entries are `Option ℚ` so that a stored entry whose
`Number` coercion is `NaN`/non-numeric is representable as `none`;
`savedAt` is the numeric time value of the stored timestamp. -/
structure Snapshot where
  id : String
  savedAt : ℚ
  actual : Option ℚ
  probs : List (Option ℚ)
  scheme : List Bracket
deriving DecidableEq, Repr

/-- A current source row as read by the statistics functions: `forecast` is
`none` when `Number(r.forecast)` is not finite. -/
structure SRow where
  source : String
  forecast : Option ℚ
deriving DecidableEq, Repr

/-- Models `String.prototype.trim`: drop leading and trailing whitespace. -/
def jsTrim (s : String) : String :=
  ⟨((s.data.dropWhile Char.isWhitespace).reverse.dropWhile Char.isWhitespace).reverse⟩

/-- `Map.prototype.get` on a string-keyed map of rationals (insertion-ordered
association list, keys unique). -/
def mget : List (String × ℚ) → String → Option ℚ
  | [], _ => none
  | (k', v) :: m, k => if k' = k then some v else mget m k

/-- `Map.prototype.set` / object property assignment: replace the value when
the key is present, append otherwise. -/
def mset : List (String × ℚ) → String → ℚ → List (String × ℚ)
  | [], k, v => [(k, v)]
  | (k', v') :: m, k, v => if k' = k then (k', v) :: m else (k', v') :: mset m k v

/-- Body of the inner `currentRows.forEach` of `computeBiases`
(src/unnamed/part_000:61-68): skip rows with an empty trimmed name or a
non-finite forecast, else accumulate the signed error and the count for the
trimmed source name.  The state is the pair (srcSum, srcCnt). -/
def biasStep (actual : ℚ) (st : List (String × ℚ) × List (String × ℚ)) (r : SRow) :
    List (String × ℚ) × List (String × ℚ) :=
  let name := jsTrim r.source
  match r.forecast with
  | none => st
  | some fc =>
    if name = "" then st
    else
      let err := actual - fc
      (mset st.1 name ((mget st.1 name).getD 0 + err),
       mset st.2 name ((mget st.2 name).getD 0 + 1))

/-- Embeds `computeBiases` (src/unnamed/part_000:48-73).  `none` for either
collection models a null/undefined or non-array argument (the guarded
`Array.isArray` checks).  The result is the final `out` object: one entry per
accumulated source, mean signed error `sum / count` (the `|| 1` fallback of the
source is kept verbatim). -/
def computeBiases (snapshots : Option (List Snapshot)) (currentRows : Option (List SRow))
    (windowSize : Int) : List (String × ℚ) :=
  match snapshots, currentRows with
  | some snaps, some rows =>
    let withActual := snaps.filter (fun s => s.actual.isSome)
    let tk := if 0 < windowSize then withActual.take windowSize.toNat else withActual
    let st := tk.foldl (fun st s => rows.foldl (biasStep (s.actual.getD 0)) st) ([], [])
    st.1.map (fun p =>
      (p.1, p.2 / (match mget st.2 p.1 with
                   | some c => if c = 0 then 1 else c
                   | none => 1)))
  | _, _ => []

/-- A per-source statistics row as consumed by `calculateAutoWeights` (only the
`source` and `mae` fields are read there). -/
structure PStat where
  source : String
  mae : ℚ
deriving DecidableEq, Repr

/-- Embeds `calculateAutoWeights` (src/unnamed/part_000:236-253): raw score
`1 / (Math.max(0, r.mae) + 0.5)` per source accumulated into an object, `none`
when disabled, when the stats are missing or empty, or when the score sum is
not positive (the non-finite guard of the source cannot fire over ℚ). -/
def calculateAutoWeights (perSourceStats : Option (List PStat)) (useAutoWeights : Bool) :
    Option (List (String × ℚ)) :=
  if ¬useAutoWeights then none
  else
    match perSourceStats with
    | none => none
    | some stats =>
      if stats = [] then none
      else
        let scores := stats.foldl (fun m r => mset m r.source (1 / (max 0 r.mae + 1 / 2))) []
        let total := (scores.map Prod.snd).sum
        if total ≤ 0 then none
        else some (scores.map (fun p => (p.1, p.2 / total)))

/-- Embeds `calculateBlendedProbs` (src/unnamed/part_000:276-287) on a proper
snapshot array: identity when blending is off, no prior id is set, the snapshot
is not found, or the schemes differ in length or labels; otherwise the
0.5/0.5 element-wise blend re-normalized by its sum (`|| 1` on a zero sum). -/
def calculateBlendedProbs (usePrior : Bool) (priorId : String) (baseProbs : List ℚ)
    (snapshots : List Snapshot) (scheme : List Bracket) : List ℚ :=
  if ¬usePrior ∨ priorId = "" then baseProbs
  else
    match snapshots.find? (fun s => s.id == priorId) with
    | none => baseProbs
    | some snap =>
      let sameLength := snap.scheme.length == scheme.length
      let sameLabels :=
        sameLength && (snap.scheme.zip scheme).all (fun p => p.1.label == p.2.label)
      if ¬sameLabels then baseProbs
      else
        let prior := snap.probs
        let out := baseProbs.enum.map
          (fun p => 1 / 2 * p.2 + 1 / 2 * ((prior.getD p.1 none).getD 0))
        let s := out.sum
        out.map (fun v => v / (if s = 0 then 1 else s))

/-- Embeds `calculateBlendedProbs` at JavaScript dynamic-typing fidelity in its
`snapshots` argument, which has no `Array.isArray` guard in the source: when
blending is active (`usePrior` truthy and `priorId` a non-empty string), the
member call `snapshots.find(...)` on a null/undefined collection throws a
`TypeError`, modelled as `.error`; every non-throwing path defers to the typed
embedding. -/
def calculateBlendedProbsDyn (usePrior : Bool) (priorId : String) (baseProbs : List ℚ)
    (snapshots : Option (List Snapshot)) (scheme : List Bracket) :
    Except String (List ℚ) :=
  if ¬usePrior ∨ priorId = "" then .ok baseProbs
  else
    match snapshots with
    | none => .error "TypeError: cannot read snapshots.find of null or undefined"
    | some snaps => .ok (calculateBlendedProbs usePrior priorId baseProbs snaps scheme)

/-- `Number(probs[i]) || 0`: the coerced probability value at index `i`
(missing or non-numeric entries coerce to 0). -/
def cval (probs : List (Option ℚ)) (i : Nat) : ℚ := (probs.getD i none).getD 0

/-- `v > maxVal` where `maxVal` starts at `-Infinity` (modelled `none`). -/
def botLt : Option ℚ → ℚ → Bool
  | none, _ => true
  | some a, b => decide (a < b)

/-- JavaScript `Number(x) > Number(y)` on possibly non-numeric entries: any
comparison involving `NaN` is false. -/
def optGt : Option ℚ → Option ℚ → Bool
  | some a, some b => decide (b < a)
  | _, _ => false

/-- The argmax scan of `calculateAccuracy` (src/unnamed/part_000:170-178) run
over the first `n` indices: state `(maxIdx, maxVal)` starting `(-1, -Infinity)`,
`maxIdx` updated on strict `>` of the coerced value. -/
def accFold (probs : List (Option ℚ)) (n : Nat) : Int × Option ℚ :=
  (List.range n).foldl
    (fun st i => if botLt st.2 (cval probs i) then ((i : Int), some (cval probs i)) else st)
    (-1, none)

/-- The index of maximum probability as `calculateAccuracy` computes it. -/
def accMaxIdx (probs : List (Option ℚ)) : Int := (accFold probs probs.length).1

/-- The reduce of `calculateAccuracyTrendData` (src/unnamed/part_000:228) run
over the first `n` indices: `probs.reduce((best, v, i2) => (Number(v) >
Number(probs[best]) ? i2 : best), 0)`. -/
def trendFold (probs : List (Option ℚ)) (n : Nat) : Nat :=
  (List.range n).foldl
    (fun best i => if optGt (probs.getD i none) (probs.getD best none) then i else best) 0

/-- The index of maximum probability as `calculateAccuracyTrendData` computes it. -/
def trendMaxIdx (probs : List (Option ℚ)) : Nat := trendFold probs probs.length

/-- The result record of `calculateAccuracy`. -/
structure AccResult where
  correct : Nat
  total : Nat
  pct : ℚ
deriving DecidableEq, Repr

/-- The per-snapshot correctness test of `calculateAccuracy`
(src/unnamed/part_000:179): `maxIdx >= 0 && bracketContainsActual(...)`. -/
def snapJudged (s : Snapshot) : Bool :=
  decide (0 ≤ accMaxIdx s.probs) && bracketContainsActual s.scheme (accMaxIdx s.probs) s.actual

/-- Embeds `calculateAccuracy` (src/unnamed/part_000:162-182).  The source
filter keeps snapshots with a numeric `actual`, array-valued `probs`
(always true in this typed model, with no emptiness requirement) and a
non-empty `scheme`; `pct` is `correct/total*100` with 0 on an empty total. -/
def calculateAccuracy (snapshots : Option (List Snapshot)) : AccResult :=
  let withActual :=
    (snapshots.getD []).filter (fun s => s.actual.isSome && decide (0 < s.scheme.length))
  let total := withActual.length
  let correct := (withActual.filter snapJudged).length
  { correct := correct, total := total,
    pct := if total = 0 then 0 else (correct : ℚ) / (total : ℚ) * 100 }

/-- Claim-side notion for the Bias Estimator: a (snapshot, row) pair counts
toward source `name` when the row's trimmed source equals `name`, is non-empty,
and the row's forecast is finite. -/
def biasCounts (name : String) (p : Snapshot × SRow) : Bool :=
  (jsTrim p.2.source == name) && (!(name == "")) && p.2.forecast.isSome

/-- The signed error `actual − forecast` contributed by one (snapshot, row)
pair. -/
def pairErr (p : Snapshot × SRow) : ℚ := p.1.actual.getD 0 - p.2.forecast.getD 0

/-- Claim-side notion: the (snapshot, row) pairs the Bias Estimator is said to
average over for source `name` — snapshots with a numeric actual (the first
`windowSize` of them when `windowSize > 0`, else all), each paired with every
current row, restricted to pairs counting toward `name`. -/
def biasPairs (name : String) (snaps : List Snapshot) (rows : List SRow) (w : Int) :
    List (Snapshot × SRow) :=
  ((if 0 < w then (snaps.filter (fun s => s.actual.isSome)).take w.toNat
    else snaps.filter (fun s => s.actual.isSome)).bind
      (fun s => rows.map (fun r => (s, r)))).filter (biasCounts name)

/-- Claim-side notion for the Weight Resolver: the raw scores
`1 / (mae + 0.5)` accumulated per source name, as the claim words them
(no clamping of `mae`). -/
def rawScores (stats : List PStat) : List (String × ℚ) :=
  stats.foldl (fun m r => mset m r.source (1 / (r.mae + 1 / 2))) []

/-- Claim-side notion for the Prior Blender: the prior snapshot's scheme has
the same length as the current scheme and the same label at every position. -/
def schemeCompatible (s1 s2 : List Bracket) : Prop :=
  s1.length = s2.length ∧ ∀ i, i < s1.length →
    (s1.getD i default).label = (s2.getD i default).label

/-! ### Supporting lemmas: `addAt` and `findBracket` -/

theorem addAt_length (l : List ℚ) (i : Nat) (v : ℚ) :
    (addAt l i v).length = l.length := by
  simp [addAt]

theorem addAt_sum (l : List ℚ) (i : Nat) (v : ℚ) (hi : i < l.length) :
    (addAt l i v).sum = l.sum + v := by
  induction l generalizing i with
  | nil => simp at hi
  | cons a rest ih =>
    cases i with
    | zero => simp [addAt]; ring
    | succ k =>
      have hk : k < rest.length := by simpa using hi
      have := ih k hk
      simp only [addAt, List.set, List.getD_cons_succ, List.sum_cons] at this ⊢
      rw [this]; ring

theorem addAt_getD (l : List ℚ) (i : Nat) (v : ℚ) (hi : i < l.length) (j : Nat) :
    (addAt l i v).getD j 0 = l.getD j 0 + if j = i then v else 0 := by
  induction l generalizing i j with
  | nil => simp at hi
  | cons a rest ih =>
    cases i with
    | zero =>
      cases j with
      | zero => simp [addAt]
      | succ m => simp [addAt]
    | succ k =>
      have hk : k < rest.length := by simpa using hi
      cases j with
      | zero => simp [addAt]
      | succ m =>
        have := ih k hk m
        simp only [addAt, List.set, List.getD_cons_succ] at this ⊢
        simpa using this

theorem getD_replicate_zero (n j : Nat) : (List.replicate n (0 : ℚ)).getD j 0 = 0 := by
  induction n generalizing j with
  | zero => simp
  | succ m ih =>
    cases j with
    | zero => simp [List.replicate]
    | succ k => simpa [List.replicate] using ih k

@[simp] theorem bmax_cons_zero (b : Bracket) (rest : List Bracket) :
    bmax (b :: rest) 0 = b.max := rfl

@[simp] theorem bmax_cons_succ (b : Bracket) (rest : List Bracket) (k : Nat) :
    bmax (b :: rest) (k + 1) = bmax rest k := rfl

theorem findBracketAux_some_lt {t : ℚ} {scheme : List Bracket} {k : Nat}
    (h : findBracketAux t scheme = some k) : k < scheme.length := by
  induction scheme generalizing k with
  | nil => simp [findBracketAux] at h
  | cons b rest ih =>
    unfold findBracketAux at h
    by_cases hb : xle t b.max
    · rw [if_pos hb] at h
      injection h with h0
      simp [← h0]
    · rw [if_neg hb] at h
      cases hfa : findBracketAux t rest with
      | none => rw [hfa] at h; simp at h
      | some m =>
        rw [hfa] at h
        simp only [Option.map_some'] at h
        injection h with h0
        have := ih hfa
        simp [← h0]
        omega

theorem findBracketAux_spec (t : ℚ) (scheme : List Bracket) (k : Nat) :
    findBracketAux t scheme = some k ↔
      (k < scheme.length ∧ xle t (bmax scheme k) = true ∧
        ∀ j, j < k → xle t (bmax scheme j) = false) := by
  induction scheme generalizing k with
  | nil => simp [findBracketAux]
  | cons b rest ih =>
    unfold findBracketAux
    by_cases hb : xle t b.max
    · rw [if_pos hb]
      constructor
      · intro h
        injection h with h0
        subst h0
        exact ⟨Nat.succ_pos _, by simpa using hb, fun j hj => absurd hj (by omega)⟩
      · rintro ⟨_, _, hnone⟩
        rcases Nat.eq_zero_or_pos k with rfl | hkpos
        · rfl
        · have hz := hnone 0 hkpos
          simp only [bmax_cons_zero] at hz
          rw [hz] at hb
          exact absurd hb (by simp)
    · rw [if_neg hb]
      have hbf : xle t b.max = false := by simpa using hb
      cases hfa : findBracketAux t rest with
      | none =>
        simp only [Option.map_none']
        constructor
        · intro h; cases h
        · rintro ⟨h1, h2, h3⟩
          cases k with
          | zero => simp only [bmax_cons_zero] at h2; rw [hbf] at h2; cases h2
          | succ m =>
            have hm : findBracketAux t rest = some m := by
              refine (ih m).2 ⟨by simpa using h1, by simpa using h2, ?_⟩
              intro j hj
              simpa using h3 (j + 1) (by omega)
            rw [hfa] at hm; cases hm
      | some m =>
        simp only [Option.map_some']
        constructor
        · intro h
          injection h with h0
          subst h0
          obtain ⟨h1, h2, h3⟩ := (ih m).1 hfa
          refine ⟨by simpa using Nat.succ_lt_succ h1, by simpa using h2, ?_⟩
          intro j hj
          cases j with
          | zero => simpa using hbf
          | succ m' => simpa using h3 m' (by omega)
        · rintro ⟨h1, h2, h3⟩
          cases k with
          | zero => simp only [bmax_cons_zero] at h2; rw [hbf] at h2; cases h2
          | succ m' =>
            have hm : findBracketAux t rest = some m' := by
              refine (ih m').2 ⟨by simpa using h1, by simpa using h2, ?_⟩
              intro j hj
              simpa using h3 (j + 1) (by omega)
            rw [hfa] at hm
            injection hm with h0
            simp [h0]

theorem findBracketAux_none (t : ℚ) (scheme : List Bracket) :
    findBracketAux t scheme = none ↔ ∀ b ∈ scheme, xle t b.max = false := by
  induction scheme with
  | nil => simp [findBracketAux]
  | cons b rest ih =>
    by_cases hb : xle t b.max
    · simp [findBracketAux, hb]
    · simp [findBracketAux, hb, ih]

theorem findBracket_eq_coe_iff (scheme : List Bracket) (t : ℚ) (k : Nat) :
    findBracket scheme t = (k : Int) ↔ findBracketAux t scheme = some k := by
  constructor
  · intro h
    unfold findBracket at h
    by_cases hs : scheme = []
    · simp [hs] at h
    · simp only [hs, if_neg, not_false_iff] at h
      cases hfa : findBracketAux t scheme with
      | none => rw [hfa] at h; simp at h
      | some m =>
        rw [hfa] at h
        simp at h
        simpa [h] using hfa
  · intro h
    have hs : scheme ≠ [] := by
      intro hnil
      rw [hnil] at h
      simp [findBracketAux] at h
    unfold findBracket
    simp [hs, h]

theorem findBracket_nonneg_resolved {scheme : List Bracket} {t : ℚ}
    (h : 0 ≤ findBracket scheme t) :
    ∃ k : Nat, findBracket scheme t = (k : Int) ∧ k < scheme.length := by
  unfold findBracket at h ⊢
  by_cases hs : scheme = []
  · simp [hs] at h
  · simp only [hs, if_neg, not_false_iff] at h ⊢
    cases hfa : findBracketAux t scheme with
    | none => rw [hfa] at h; simp at h
    | some m => exact ⟨m, by simp [hfa], findBracketAux_some_lt hfa⟩

theorem clamp_of_lt {k n : Nat} (h : k < n) : clamp (k : Int) (n : Int) = (k : Int) := by
  simp only [clamp, max_def, min_def]
  split <;> split <;> omega

theorem baseStep_length (scheme : List Bracket) (out : List ℚ) (r : ARow) :
    (baseStep scheme out r).length = out.length := by
  unfold baseStep
  cases r.adjForecast with
  | none => rfl
  | some f => dsimp only; split_ifs <;> simp [addAt_length]

/-- Explicit description of one probability-engine step when the row's forecast
resolves to bracket `k`. -/
theorem baseStep_eq (scheme : List Bracket) (out : List ℚ) (r : ARow) (f : ℚ) (k : Nat)
    (hf : r.adjForecast = some f) (hk : findBracket scheme f = (k : Int))
    (hklt : k < scheme.length) :
    baseStep scheme out r =
      (let w := r.nWeight
       let out1 := addAt out k ((1 - bleed) * w)
       if 0 < bleed * w then
         if 1 ≤ k ∧ k + 1 < scheme.length then
           addAt (addAt out1 (k - 1) (bleed * w / 2)) (k + 1) (bleed * w / 2)
         else if 1 ≤ k then addAt out1 (k - 1) (bleed * w)
         else if k + 1 < scheme.length then addAt out1 (k + 1) (bleed * w)
         else addAt out1 k (bleed * w)
       else out1) := by
  have h1 : ¬ ((k : Int) < 0) := by omega
  have h2 : clamp (k : Int) (scheme.length : Int) = (k : Int) := clamp_of_lt hklt
  have h3 : (k : Int).toNat = k := by omega
  have h4 : ((k : Int) - 1).toNat = k - 1 := by omega
  have h5 : ((k : Int) + 1).toNat = k + 1 := by omega
  have h6 : ((0 : Int) ≤ (k : Int) - 1 ∧ (k : Int) + 1 < (scheme.length : Int)) ↔
      (1 ≤ k ∧ k + 1 < scheme.length) := by omega
  have h7 : ((0 : Int) ≤ (k : Int) - 1) ↔ 1 ≤ k := by omega
  have h8 : ((k : Int) + 1 < (scheme.length : Int)) ↔ k + 1 < scheme.length := by omega
  unfold baseStep
  rw [hf]
  dsimp only
  rw [hk]
  rw [if_neg h1, h2, h3, h4, h5]
  rw [if_congr h6 rfl rfl, if_congr h7 rfl rfl, if_congr h8 rfl rfl]

theorem bleed_pos : 0 < bleed := by norm_num [bleed]

theorem baseStep_sum (scheme : List Bracket) (out : List ℚ) (r : ARow)
    (hlen : out.length = scheme.length)
    (hres : ∃ f, r.adjForecast = some f ∧ 0 ≤ findBracket scheme f)
    (hw : 0 ≤ r.nWeight) :
    (baseStep scheme out r).sum = out.sum + r.nWeight := by
  obtain ⟨f, hf, hpos⟩ := hres
  obtain ⟨k, hk, hklt⟩ := findBracket_nonneg_resolved hpos
  rw [baseStep_eq scheme out r f k hf hk hklt]
  have hkout : k < out.length := hlen ▸ hklt
  have hsum1 : (addAt out k ((1 - bleed) * r.nWeight)).sum
      = out.sum + (1 - bleed) * r.nWeight := addAt_sum _ _ _ hkout
  have hlen1 : (addAt out k ((1 - bleed) * r.nWeight)).length = out.length :=
    addAt_length _ _ _
  dsimp only
  split_ifs with hb hc hd he
  · -- both neighbours
    rw [addAt_sum _ _ _ (by rw [addAt_length, hlen1]; omega),
        addAt_sum _ _ _ (by rw [hlen1]; omega), hsum1]
    ring
  · -- left neighbour only
    rw [addAt_sum _ _ _ (by rw [hlen1]; omega), hsum1]
    ring
  · -- right neighbour only
    rw [addAt_sum _ _ _ (by rw [hlen1]; omega), hsum1]
    ring
  · -- single-bracket scheme: bleed falls back on k
    rw [addAt_sum _ _ _ (by rw [hlen1]; omega), hsum1]
    ring
  · -- bleed share not positive: the weight must be 0
    have hw0 : r.nWeight = 0 := by
      have hb' : bleed * r.nWeight ≤ 0 := le_of_not_lt hb
      nlinarith [bleed_pos]
    rw [hsum1, hw0]
    ring

/-- Mass added by a list of rows, each resolving to a valid bracket with
nonnegative weight. -/
theorem foldl_baseStep_sum (scheme : List Bracket) (rows : List ARow) (out : List ℚ)
    (hlen : out.length = scheme.length)
    (hres : ∀ r ∈ rows, ∃ f, r.adjForecast = some f ∧ 0 ≤ findBracket scheme f)
    (hw : ∀ r ∈ rows, 0 ≤ r.nWeight) :
    (rows.foldl (baseStep scheme) out).sum = out.sum + (rows.map ARow.nWeight).sum := by
  induction rows generalizing out with
  | nil => simp
  | cons r rest ih =>
    simp only [List.foldl_cons, List.map_cons, List.sum_cons]
    rw [ih (baseStep scheme out r) (by rw [baseStep_length]; exact hlen)
        (fun x hx => hres x (by simp [hx])) (fun x hx => hw x (by simp [hx]))]
    rw [baseStep_sum scheme out r hlen (hres r (by simp)) (hw r (by simp))]
    ring

/-- The three-bracket example scheme `[≤91, 92–93, 94–95]` of the spec. -/
def schemeEx3 : List Bracket := [⟨"≤91", .num 91⟩, ⟨"92–93", .num 93⟩, ⟨"94–95", .num 95⟩]

theorem findBracket_schemeEx3_mid : findBracket schemeEx3 (185 / 2) = ((1 : Nat) : Int) := by
  rw [findBracket, if_neg (by simp [schemeEx3])]
  norm_num [findBracketAux, xle, schemeEx3]

theorem findBracket_eq_neg_one_iff (scheme : List Bracket) (t : ℚ) :
    findBracket scheme t = -1 ↔ (scheme = [] ∨ ∀ b ∈ scheme, xle t b.max = false) := by
  unfold findBracket
  by_cases hs : scheme = []
  · simp [hs]
  · rw [if_neg hs]
    cases hfa : findBracketAux t scheme with
    | none =>
      exact iff_of_true rfl (Or.inr ((findBracketAux_none t scheme).1 hfa))
    | some m =>
      simp only [hs, false_or]
      constructor
      · intro h; simp at h
      · intro hall
        have hnone : findBracketAux t scheme = none := (findBracketAux_none t scheme).2 hall
        rw [hfa] at hnone; cases hnone

theorem mget_mset_self (m : List (String × ℚ)) (k : String) (v : ℚ) :
    mget (mset m k v) k = some v := by
  induction m with
  | nil => simp [mset, mget]
  | cons p m ih =>
    by_cases h : p.1 = k
    · simp [mset, mget, h]
    · simp [mset, mget, h, ih]

theorem mget_mset_ne (m : List (String × ℚ)) (k k' : String) (v : ℚ) (h : k' ≠ k) :
    mget (mset m k v) k' = mget m k' := by
  have h' : ¬ (k = k') := fun hh => h hh.symm
  induction m with
  | nil => simp [mset, mget, h']
  | cons p m ih =>
    by_cases hp : p.1 = k
    · simp [mset, mget, hp, h']
    · simp [mset, mget, hp, ih]

theorem biasFold_mget (name : String) (P : List (Snapshot × SRow)) :
    ∀ st : List (String × ℚ) × List (String × ℚ),
      (mget (P.foldl (fun st p => biasStep (p.1.actual.getD 0) st p.2) st).1 name =
        (if P.filter (biasCounts name) = [] then mget st.1 name
         else some ((mget st.1 name).getD 0 + ((P.filter (biasCounts name)).map pairErr).sum))) ∧
      (mget (P.foldl (fun st p => biasStep (p.1.actual.getD 0) st p.2) st).2 name =
        (if P.filter (biasCounts name) = [] then mget st.2 name
         else some ((mget st.2 name).getD 0 + ((P.filter (biasCounts name)).length : ℚ)))) := by
  induction P with
  | nil => intro st; simp
  | cons p P ih =>
    intro st
    rcases hfc : p.2.forecast with _ | fc
    · have hstep : biasStep (p.1.actual.getD 0) st p.2 = st := by
        unfold biasStep; rw [hfc]
      have hq : biasCounts name p = false := by simp [biasCounts, hfc]
      rw [List.foldl_cons, hstep, List.filter_cons_of_neg (by simp [hq])]
      exact ih st
    · by_cases hname' : jsTrim p.2.source = ""
      · have hstep : biasStep (p.1.actual.getD 0) st p.2 = st := by
          unfold biasStep; rw [hfc]; dsimp only; rw [if_pos hname']
        have hq : biasCounts name p = false := by
          by_cases hn : name = ""
          · simp [biasCounts, hn]
          · simp [biasCounts, hname', Ne.symm hn]
        rw [List.foldl_cons, hstep, List.filter_cons_of_neg (by simp [hq])]
        exact ih st
      · have hstep : biasStep (p.1.actual.getD 0) st p.2 =
            (mset st.1 (jsTrim p.2.source)
               ((mget st.1 (jsTrim p.2.source)).getD 0 + (p.1.actual.getD 0 - fc)),
             mset st.2 (jsTrim p.2.source)
               ((mget st.2 (jsTrim p.2.source)).getD 0 + 1)) := by
          unfold biasStep; rw [hfc]; dsimp only; rw [if_neg hname']
        by_cases heq : jsTrim p.2.source = name
        · have hnn : ¬ name = "" := heq ▸ hname'
          have hq : biasCounts name p = true := by simp [biasCounts, heq, hnn, hfc]
          rw [heq] at hstep
          rw [List.foldl_cons, hstep, List.filter_cons_of_pos (by simp [hq])]
          obtain ⟨ih1, ih2⟩ := ih (mset st.1 name ((mget st.1 name).getD 0 + (p.1.actual.getD 0 - fc)),
            mset st.2 name ((mget st.2 name).getD 0 + 1))
          constructor
          · rw [ih1]
            by_cases hF : P.filter (biasCounts name) = []
            · rw [if_pos hF, if_neg (by simp)]
              rw [mget_mset_self, hF]
              simp [pairErr, hfc]
            · rw [if_neg hF, if_neg (by simp)]
              rw [mget_mset_self]
              simp only [Option.getD_some, List.map_cons, List.sum_cons, pairErr, hfc,
                Option.getD_some]
              ring_nf
          · rw [ih2]
            by_cases hF : P.filter (biasCounts name) = []
            · rw [if_pos hF, if_neg (by simp)]
              rw [mget_mset_self, hF]
              simp
            · rw [if_neg hF, if_neg (by simp)]
              rw [mget_mset_self]
              simp only [Option.getD_some, List.length_cons]
              push_cast
              ring_nf
        · have hq : biasCounts name p = false := by simp [biasCounts, heq]
          rw [List.foldl_cons, hstep, List.filter_cons_of_neg (by simp [hq])]
          obtain ⟨ih1, ih2⟩ := ih
            (mset st.1 (jsTrim p.2.source)
               ((mget st.1 (jsTrim p.2.source)).getD 0 + (p.1.actual.getD 0 - fc)),
             mset st.2 (jsTrim p.2.source) ((mget st.2 (jsTrim p.2.source)).getD 0 + 1))
          dsimp only at ih1 ih2
          rw [mget_mset_ne _ _ _ _ (Ne.symm heq)] at ih1
          rw [mget_mset_ne _ _ _ _ (Ne.symm heq)] at ih2
          exact ⟨ih1, ih2⟩

theorem foldl_rows_pairs (rows : List SRow) (s : Snapshot)
    (st0 : List (String × ℚ) × List (String × ℚ)) :
    rows.foldl (biasStep (s.actual.getD 0)) st0 =
      (rows.map (fun r => (s, r))).foldl (fun st p => biasStep (p.1.actual.getD 0) st p.2) st0 := by
  induction rows generalizing st0 with
  | nil => rfl
  | cons r rest ih =>
    simp only [List.foldl_cons, List.map_cons]
    exact ih _

theorem nested_foldl_biasStep (rows : List SRow) (tk : List Snapshot)
    (st0 : List (String × ℚ) × List (String × ℚ)) :
    tk.foldl (fun st s => rows.foldl (biasStep (s.actual.getD 0)) st) st0 =
      (tk.bind (fun s => rows.map (fun r => (s, r)))).foldl
        (fun st p => biasStep (p.1.actual.getD 0) st p.2) st0 := by
  induction tk generalizing st0 with
  | nil => rfl
  | cons s rest ih =>
    simp only [List.foldl_cons, List.cons_bind, List.foldl_append]
    rw [← foldl_rows_pairs]
    exact ih _

theorem mget_map_total (m m2 : List (String × ℚ)) (name : String) :
    mget (m.map (fun p => (p.1, p.2 /
        match mget m2 p.1 with
        | some c => if c = 0 then 1 else c
        | none => 1))) name =
      (mget m name).map (· / match mget m2 name with
        | some c => if c = 0 then 1 else c
        | none => 1) := by
  induction m with
  | nil => simp [mget]
  | cons p m ih =>
    by_cases h : p.1 = name
    · simp [mget, h]
    · simp [mget, h, ih]

theorem foldl_scores_congr : ∀ (stats : List PStat), (∀ r ∈ stats, 0 ≤ r.mae) →
    ∀ m0, stats.foldl (fun m r => mset m r.source (1 / (max 0 r.mae + 1 / 2))) m0
      = stats.foldl (fun m r => mset m r.source (1 / (r.mae + 1 / 2))) m0
  | [], _, m0 => rfl
  | r :: rest, h, m0 => by
    simp only [List.foldl_cons]
    rw [max_eq_right (h r (by simp))]
    exact foldl_scores_congr rest (fun x hx => h x (by simp [hx])) _

theorem mset_ne_nil (m : List (String × ℚ)) (k : String) (v : ℚ) : mset m k v ≠ [] := by
  cases m with
  | nil => simp [mset]
  | cons p m => by_cases h : p.1 = k <;> simp [mset, h]

theorem mem_snd_mset {m : List (String × ℚ)} {k : String} {v x : ℚ}
    (hx : x ∈ (mset m k v).map Prod.snd) : x ∈ m.map Prod.snd ∨ x = v := by
  induction m with
  | nil => simp [mset] at hx; exact Or.inr hx
  | cons p m ih =>
    by_cases h : p.1 = k
    · simp [mset, h] at hx
      rcases hx with hx | hx
      · exact Or.inr hx
      · exact Or.inl (by simp [hx])
    · simp [mset, h] at hx
      rcases hx with hx | hx
      · exact Or.inl (by simp [hx])
      · rcases ih (by simpa using hx) with h2 | h2
        · exact Or.inl (by simp; right; simpa using h2)
        · exact Or.inr h2

theorem sum_map_div (l : List ℚ) (c : ℚ) : (l.map (· / c)).sum = l.sum / c := by
  induction l with
  | nil => simp
  | cons x l ih => simp [ih]; ring

theorem foldl_mset_snd_pos :
    ∀ (stats : List PStat), (∀ r ∈ stats, 0 ≤ r.mae) →
    ∀ m0 : List (String × ℚ), (∀ x ∈ m0.map Prod.snd, 0 < x) →
    ∀ x ∈ ((stats.foldl (fun m r => mset m r.source (1 / (r.mae + 1 / 2))) m0).map Prod.snd),
      0 < x
  | [], _, m0, hm0 => hm0
  | r :: rest, h, m0, hm0 => by
    simp only [List.foldl_cons]
    refine foldl_mset_snd_pos rest (fun y hy => h y (by simp [hy])) _ ?_
    intro x hx
    rcases mem_snd_mset hx with hx2 | hx2
    · exact hm0 x hx2
    · rw [hx2]
      have := h r (by simp)
      positivity

theorem foldl_mset_ne_nil :
    ∀ (stats : List PStat) (m0 : List (String × ℚ)), stats ≠ [] →
      (stats.foldl (fun m r => mset m r.source (1 / (r.mae + 1 / 2))) m0) ≠ []
  | [], _, h => absurd rfl h
  | r :: rest, m0, _ => by
    simp only [List.foldl_cons]
    rcases eq_or_ne rest [] with rfl | hne
    · exact mset_ne_nil _ _ _
    · exact foldl_mset_ne_nil rest _ hne

theorem rawScores_sum_pos (stats : List PStat) (hmae : ∀ r ∈ stats, 0 ≤ r.mae)
    (hne : stats ≠ []) : 0 < ((rawScores stats).map Prod.snd).sum := by
  apply List.sum_pos
  · exact foldl_mset_snd_pos stats hmae [] (by simp)
  · simp only [ne_eq, List.map_eq_nil]
    exact foldl_mset_ne_nil stats [] hne

theorem computeBiases_spec_example :
    computeBiases (some [⟨"s1", 0, some 97, [], []⟩, ⟨"s2", 1, some 97, [], []⟩])
      (some [⟨"A", some 95⟩, ⟨"A", some 96⟩]) 0 = [("A", 3/2)] := by
  simp [computeBiases, biasStep, jsTrim, mget, mset]
  norm_num

theorem zip_label_iff : ∀ (s1 s2 : List Bracket), s1.length = s2.length →
    ((∀ p ∈ s1.zip s2, p.1.label = p.2.label) ↔
      (∀ i, i < s1.length → (s1.getD i default).label = (s2.getD i default).label))
  | [], [], _ => by simp
  | [], b :: s2, h => by simp at h
  | a :: s1, [], h => by simp at h
  | a :: s1, b :: s2, h => by
    have ih := zip_label_iff s1 s2 (by simpa using h)
    constructor
    · intro hall i hi
      cases i with
      | zero => simpa using hall (a, b) (by simp)
      | succ j => exact ih.1 (fun p hp => hall p (by simp [hp])) j (by simpa using hi)
    · intro hidx p hp
      rcases List.mem_cons.1 hp with rfl | hp2
      · simpa using hidx 0 (by simp)
      · exact ih.2 (fun j hj => by simpa using hidx (j + 1) (by simpa using Nat.succ_lt_succ hj))
          p hp2

theorem sameLabels_check_iff (s1 s2 : List Bracket) :
    (((s1.length == s2.length) && ((s1.zip s2).all (fun p => p.1.label == p.2.label))) = true)
      ↔ schemeCompatible s1 s2 := by
  simp only [Bool.and_eq_true, beq_iff_eq, List.all_eq_true, schemeCompatible]
  constructor
  · rintro ⟨h1, h2⟩
    exact ⟨h1, (zip_label_iff s1 s2 h1).1 h2⟩
  · rintro ⟨h1, h2⟩
    exact ⟨h1, (zip_label_iff s1 s2 h1).2 h2⟩

theorem accFold_spec : ∀ (probs : List (Option ℚ)) (n : Nat), 1 ≤ n →
    ∃ b : Nat, accFold probs n = ((b : Int), some (cval probs b)) ∧ b < n ∧
      (∀ j, j < n → cval probs j ≤ cval probs b) ∧
      (∀ j, j < b → cval probs j < cval probs b) := by
  intro probs n
  induction n with
  | zero => omega
  | succ m ih =>
    intro _
    rcases Nat.eq_zero_or_pos m with rfl | hm
    · refine ⟨0, ?_, by omega, ?_, by omega⟩
      · simp [accFold, (show List.range 1 = [0] from rfl), botLt]
      · intro j hj
        have : j = 0 := by omega
        simp [this]
    · obtain ⟨b, hfold, hblt, hmax, hstrict⟩ := ih hm
      by_cases hlt : cval probs b < cval probs m
      · refine ⟨m, ?_, by omega, ?_, ?_⟩
        · unfold accFold at hfold ⊢
          rw [List.range_succ, List.foldl_append, hfold]
          simp [botLt, hlt]
        · intro j hj
          rcases Nat.lt_succ_iff_lt_or_eq.1 hj with hj2 | rfl
          · exact le_trans (hmax j hj2) (le_of_lt hlt)
          · exact le_refl _
        · intro j hj
          exact lt_of_le_of_lt (hmax j hj) hlt
      · refine ⟨b, ?_, by omega, ?_, hstrict⟩
        · unfold accFold at hfold ⊢
          rw [List.range_succ, List.foldl_append, hfold]
          simp [botLt, hlt]
        · intro j hj
          rcases Nat.lt_succ_iff_lt_or_eq.1 hj with hj2 | rfl
          · exact hmax j hj2
          · exact le_of_not_lt hlt

theorem map_some_getD (qs : List ℚ) (i : Nat) (h : i < qs.length) :
    (qs.map some).getD i none = some (qs.getD i 0) := by
  induction qs generalizing i with
  | nil => simp at h
  | cons q qs ih =>
    cases i with
    | zero => simp
    | succ j => simpa using ih j (by simpa using h)

theorem cval_map_some (qs : List ℚ) (i : Nat) :
    cval (qs.map some) i = qs.getD i 0 := by
  simp only [cval]
  induction qs generalizing i with
  | nil => simp
  | cons q qs ih =>
    cases i with
    | zero => simp
    | succ j => simpa using ih j

theorem trend_acc_agree : ∀ (qs : List ℚ) (n : Nat), 1 ≤ n → n ≤ qs.length →
    ∃ b : Nat, trendFold (qs.map some) n = b ∧ b < n ∧
      accFold (qs.map some) n = ((b : Int), some (cval (qs.map some) b)) := by
  intro qs n
  induction n with
  | zero => omega
  | succ m ih =>
    intro _ hlen
    rcases Nat.eq_zero_or_pos m with rfl | hm
    · refine ⟨0, ?_, by omega, ?_⟩
      · simp [trendFold, (show List.range 1 = [0] from rfl), optGt]
      · simp [accFold, (show List.range 1 = [0] from rfl), botLt]
    · obtain ⟨b, htr, hblt, hacc⟩ := ih hm (by omega)
      have hblen : b < qs.length := by omega
      have hmlen : m < qs.length := by omega
      have hcond : optGt ((qs.map some).getD m none) ((qs.map some).getD b none)
          = decide (qs.getD b 0 < qs.getD m 0) := by
        rw [map_some_getD qs m hmlen, map_some_getD qs b hblen]
        rfl
      have hcond2 : botLt (some (cval (qs.map some) b)) (cval (qs.map some) m)
          = decide (qs.getD b 0 < qs.getD m 0) := by
        rw [cval_map_some qs m, cval_map_some qs b]
        rfl
      by_cases hlt : qs.getD b 0 < qs.getD m 0
      · refine ⟨m, ?_, by omega, ?_⟩
        · unfold trendFold at htr ⊢
          rw [List.range_succ, List.foldl_append, htr]
          simp only [List.foldl_cons, List.foldl_nil]
          rw [hcond, if_pos (by simpa using hlt)]
        · unfold accFold at hacc ⊢
          rw [List.range_succ, List.foldl_append, hacc]
          simp only [List.foldl_cons, List.foldl_nil]
          rw [hcond2, if_pos (by simpa using hlt)]
      · refine ⟨b, ?_, by omega, ?_⟩
        · unfold trendFold at htr ⊢
          rw [List.range_succ, List.foldl_append, htr]
          simp only [List.foldl_cons, List.foldl_nil]
          rw [hcond, if_neg (by simpa using hlt)]
        · unfold accFold at hacc ⊢
          rw [List.range_succ, List.foldl_append, hacc]
          simp only [List.foldl_cons, List.foldl_nil]
          rw [hcond2, if_neg (by simpa using hlt)]

theorem accMaxIdx_first_argmax (probs : List (Option ℚ)) (hne : probs ≠ []) :
    0 ≤ accMaxIdx probs ∧ (accMaxIdx probs).toNat < probs.length ∧
    (∀ j, j < probs.length → cval probs j ≤ cval probs (accMaxIdx probs).toNat) ∧
    (∀ j, j < (accMaxIdx probs).toNat → cval probs j < cval probs (accMaxIdx probs).toNat) := by
  have hlen : 1 ≤ probs.length := by
    cases probs with
    | nil => exact absurd rfl hne
    | cons a l => simp
  obtain ⟨b, hfold, hblt, hmax, hstrict⟩ := accFold_spec probs probs.length hlen
  unfold accMaxIdx
  rw [hfold]
  simp only [Int.toNat_natCast]
  exact ⟨by omega, hblt, hmax, hstrict⟩

/-! ### Claim theorems -/

/-- **C1** (amended: additionally every row's `nWeight` is nonnegative).  Mass
conservation of the Probability Engine: for every non-empty scheme and every
row list in which each row has a finite `adjForecast` that resolves to a valid
bracket, with nonnegative `nWeight`, the sum of the vector returned by
`calculateBaseProbs` equals the sum of the rows' `nWeight` values exactly. -/
theorem c1_mass_conservation (scheme : List Bracket) (rows : List ARow)
    (hs : scheme ≠ [])
    (hres : ∀ r ∈ rows, ∃ f, r.adjForecast = some f ∧ 0 ≤ findBracket scheme f)
    (hw : ∀ r ∈ rows, 0 ≤ r.nWeight) :
    (calculateBaseProbs (some rows) scheme).sum = (rows.map ARow.nWeight).sum := by
  unfold calculateBaseProbs
  rw [if_neg hs]
  dsimp only
  rw [foldl_baseStep_sum scheme rows _ (by simp) hres hw]
  simp

/-- Witness for C1 at a concrete input: two rows of weights 0.7 and 0.3 on the
example scheme; the output masses sum to the input weight sum. -/
theorem c1_mass_conservation_witness :
    (∀ r ∈ ([⟨some (185 / 2), 7 / 10⟩, ⟨some 95, 3 / 10⟩] : List ARow),
        ∃ f, r.adjForecast = some f ∧ 0 ≤ findBracket schemeEx3 f) ∧
    (calculateBaseProbs (some [⟨some (185 / 2), 7 / 10⟩, ⟨some 95, 3 / 10⟩]) schemeEx3).sum
      = (([⟨some (185 / 2), 7 / 10⟩, ⟨some 95, 3 / 10⟩] : List ARow).map ARow.nWeight).sum := by
  have h95 : findBracket schemeEx3 95 = ((2 : Nat) : Int) := by
    rw [findBracket, if_neg (by simp [schemeEx3])]
    norm_num [findBracketAux, xle, schemeEx3]
  have hres : ∀ r ∈ ([⟨some (185 / 2), 7 / 10⟩, ⟨some 95, 3 / 10⟩] : List ARow),
      ∃ f, r.adjForecast = some f ∧ 0 ≤ findBracket schemeEx3 f := by
    intro r hr
    rcases List.mem_cons.1 hr with rfl | hr2
    · exact ⟨185 / 2, rfl, by rw [findBracket_schemeEx3_mid]; norm_num⟩
    · have : r = (⟨some 95, 3 / 10⟩ : ARow) := by simpa using hr2
      subst this
      exact ⟨95, rfl, by rw [h95]; norm_num⟩
  refine ⟨hres, c1_mass_conservation schemeEx3 _ (by simp [schemeEx3]) hres ?_⟩
  intro r hr
  rcases List.mem_cons.1 hr with rfl | hr2
  · norm_num
  · have : r = (⟨some 95, 3 / 10⟩ : ARow) := by simpa using hr2
    subst this
    norm_num

/-- **C1 counterexample**: as literally stated the claim is false.  A single
unbounded bracket and one row with finite forecast resolving to bracket 0 but
`nWeight = −1` satisfies every stated hypothesis, yet the output sums to −0.7
(the negative bleed share is not distributed because of the `bleedShare > 0`
guard) while the weights sum to −1. -/
theorem c1_counterexample :
    (([⟨"any", XNum.inf⟩] : List Bracket) ≠ []) ∧
    (∀ r ∈ ([⟨some 0, -1⟩] : List ARow),
        ∃ f, r.adjForecast = some f ∧ 0 ≤ findBracket [⟨"any", XNum.inf⟩] f) ∧
    (calculateBaseProbs (some [⟨some 0, -1⟩]) [⟨"any", XNum.inf⟩]).sum ≠
      (([⟨some 0, -1⟩] : List ARow).map ARow.nWeight).sum := by
  refine ⟨by simp, ?_, ?_⟩
  · intro r hr
    have : r = (⟨some 0, -1⟩ : ARow) := by simpa using hr
    subst this
    exact ⟨0, rfl, by decide⟩
  · have hval : calculateBaseProbs (some [⟨some 0, -1⟩]) [⟨"any", XNum.inf⟩] = [-7 / 10] := by
      have hk : findBracket [⟨"any", XNum.inf⟩] 0 = ((0 : Nat) : Int) := by decide
      unfold calculateBaseProbs
      rw [if_neg (by simp)]
      dsimp only
      rw [List.foldl_cons, List.foldl_nil]
      rw [baseStep_eq [⟨"any", XNum.inf⟩] _ _ 0 0 rfl hk (by simp)]
      norm_num [bleed, addAt, List.replicate]
    rw [hval]
    norm_num

/-- **C2**.  Soft-bleed distribution shape: a single row with `nWeight = 1`
whose forecast resolves to bracket `k` of an `n`-bracket scheme yields 0.7 at
`k` plus the 0.3 bleed split 0.15/0.15 over both neighbours when both exist,
the whole 0.3 on the single existing neighbour otherwise, and 1 at `k` itself
for a single-bracket scheme; every other entry is 0. -/
theorem c2_soft_bleed (scheme : List Bracket) (f : ℚ) (k : Nat)
    (hk : findBracket scheme f = (k : Int)) :
    ∀ j, j < scheme.length →
      (calculateBaseProbs (some [⟨some f, 1⟩]) scheme).getD j 0 =
        (if 1 ≤ k ∧ k + 1 < scheme.length then
          (if j = k then 7 / 10 else if j = k - 1 then 3 / 20 else
            if j = k + 1 then 3 / 20 else 0)
        else if 1 ≤ k then
          (if j = k then 7 / 10 else if j = k - 1 then 3 / 10 else 0)
        else if k + 1 < scheme.length then
          (if j = k then 7 / 10 else if j = k + 1 then 3 / 10 else 0)
        else (if j = k then 1 else 0)) := by
  intro j hj
  have hklt : k < scheme.length :=
    findBracketAux_some_lt ((findBracket_eq_coe_iff scheme f k).1 hk)
  have hs : scheme ≠ [] := by
    intro h; rw [h] at hklt; simp at hklt
  unfold calculateBaseProbs
  rw [if_neg hs]
  dsimp only
  rw [List.foldl_cons, List.foldl_nil]
  rw [baseStep_eq scheme _ _ f k rfl hk hklt]
  dsimp only
  rw [if_pos (show (0 : ℚ) < bleed * 1 by norm_num [bleed])]
  set Z := List.replicate scheme.length (0 : ℚ) with hZ
  have hZlen : Z.length = scheme.length := by simp [hZ]
  by_cases hc1 : 1 ≤ k ∧ k + 1 < scheme.length
  · rw [if_pos hc1, if_pos hc1]
    rw [addAt_getD _ _ _ (by simp [addAt_length, hZlen]; omega),
        addAt_getD _ _ _ (by simp [addAt_length, hZlen]; omega),
        addAt_getD _ _ _ (by simp [hZlen]; omega),
        getD_replicate_zero]
    split_ifs <;> first | omega | norm_num [bleed]
  · rw [if_neg hc1, if_neg hc1]
    by_cases hc2 : 1 ≤ k
    · rw [if_pos hc2, if_pos hc2]
      rw [addAt_getD _ _ _ (by simp [addAt_length, hZlen]; omega),
          addAt_getD _ _ _ (by simp [hZlen]; omega),
          getD_replicate_zero]
      split_ifs <;> first | omega | norm_num [bleed]
    · rw [if_neg hc2, if_neg hc2]
      by_cases hc3 : k + 1 < scheme.length
      · rw [if_pos hc3, if_pos hc3]
        rw [addAt_getD _ _ _ (by simp [addAt_length, hZlen]; omega),
            addAt_getD _ _ _ (by simp [hZlen]; omega),
            getD_replicate_zero]
        split_ifs <;> first | omega | norm_num [bleed]
      · rw [if_neg hc3, if_neg hc3]
        rw [addAt_getD _ _ _ (by simp [addAt_length, hZlen]; omega),
            addAt_getD _ _ _ (by simp [hZlen]; omega),
            getD_replicate_zero]
        split_ifs <;> first | omega | norm_num [bleed]

/-- Witness for C2 at the spec's concrete instance: scheme `[≤91, 92–93,
94–95]`, forecast 92.5 in the middle bracket, weight 1, output
`[0.15, 0.70, 0.15]`. -/
theorem c2_soft_bleed_witness :
    findBracket schemeEx3 (185 / 2) = ((1 : Nat) : Int) ∧
    (∀ j, j < schemeEx3.length →
      (calculateBaseProbs (some [⟨some (185 / 2), 1⟩]) schemeEx3).getD j 0 =
        (if 1 ≤ 1 ∧ 1 + 1 < schemeEx3.length then
          (if j = 1 then 7 / 10 else if j = 1 - 1 then 3 / 20 else
            if j = 1 + 1 then 3 / 20 else 0)
        else if 1 ≤ 1 then
          (if j = 1 then 7 / 10 else if j = 1 - 1 then 3 / 10 else 0)
        else if 1 + 1 < schemeEx3.length then
          (if j = 1 then 7 / 10 else if j = 1 + 1 then 3 / 10 else 0)
        else (if j = 1 then 1 else 0))) ∧
    calculateBaseProbs (some [⟨some (185 / 2), 1⟩]) schemeEx3 = [3 / 20, 7 / 10, 3 / 20] := by
  refine ⟨findBracket_schemeEx3_mid,
    c2_soft_bleed schemeEx3 (185 / 2) 1 findBracket_schemeEx3_mid, ?_⟩
  unfold calculateBaseProbs
  rw [if_neg (by simp [schemeEx3])]
  dsimp only
  rw [List.foldl_cons, List.foldl_nil]
  rw [baseStep_eq schemeEx3 _ _ (185 / 2) 1 rfl findBracket_schemeEx3_mid (by simp [schemeEx3])]
  norm_num [schemeEx3, bleed, addAt, List.replicate]

/-- **C3**.  `findBracket` correctness and boundary resolution on schemes with
strictly increasing max thresholds: it returns `i` exactly when `i` is the
smallest index with `value ≤ scheme[i].max`; it returns −1 iff the scheme is
empty or the value exceeds every threshold; at the exact boundary value
`scheme[i].max` it returns `i` (never `i + 1`); and −1 is possible only when
the last bracket's max is finite. -/
theorem c3_findBracket_correct (scheme : List Bracket) (t : ℚ)
    (hmono : ∀ j, j < scheme.length → ∀ i, i < j →
      xltx (bmax scheme i) (bmax scheme j) = true) :
    (∀ i, i < scheme.length →
      (findBracket scheme t = (i : Int) ↔
        (xle t (bmax scheme i) = true ∧ ∀ j, j < i → xle t (bmax scheme j) = false))) ∧
    (findBracket scheme t = -1 ↔ (scheme = [] ∨ ∀ b ∈ scheme, xle t b.max = false)) ∧
    (∀ i, i < scheme.length → ∀ q : ℚ, bmax scheme i = .num q →
      findBracket scheme q = (i : Int)) ∧
    (findBracket scheme t = -1 → ∀ b, scheme.getLast? = some b → b.max ≠ .inf) := by
  refine ⟨?_, findBracket_eq_neg_one_iff scheme t, ?_, ?_⟩
  · intro i hi
    rw [findBracket_eq_coe_iff, findBracketAux_spec]
    constructor
    · rintro ⟨_, h2, h3⟩; exact ⟨h2, h3⟩
    · rintro ⟨h2, h3⟩; exact ⟨hi, h2, h3⟩
  · intro i hi q hq
    rw [findBracket_eq_coe_iff, findBracketAux_spec]
    refine ⟨hi, by simp [hq, xle], ?_⟩
    intro j hj
    have hx := hmono i hi j hj
    cases hbj : bmax scheme j with
    | num p =>
      rw [hbj, hq] at hx
      simp only [xltx, decide_eq_true_eq] at hx
      simp [xle, hbj]
      linarith
    | inf => rw [hbj, hq] at hx; simp [xltx] at hx
  · intro h b hb
    rcases (findBracket_eq_neg_one_iff scheme t).1 h with hs | hall
    · rw [hs] at hb; simp at hb
    · intro hinf
      have hmem : b ∈ scheme := by
        obtain ⟨hne, heq⟩ := @List.mem_getLast?_eq_getLast _ scheme b hb
        rw [heq]; exact List.getLast_mem hne
      have hfalse := hall b hmem
      rw [hinf] at hfalse
      simp [xle] at hfalse

/-- Witness for C3: on the strictly increasing two-bracket scheme
`[≤91, ≤93]`, the exact boundary value 93 resolves to bracket 1. -/
theorem c3_findBracket_correct_witness :
    (∀ j, j < ([⟨"a", XNum.num 91⟩, ⟨"b", XNum.num 93⟩] : List Bracket).length → ∀ i, i < j →
      xltx (bmax [⟨"a", XNum.num 91⟩, ⟨"b", XNum.num 93⟩] i)
           (bmax [⟨"a", XNum.num 91⟩, ⟨"b", XNum.num 93⟩] j) = true) ∧
    findBracket [⟨"a", XNum.num 91⟩, ⟨"b", XNum.num 93⟩] 93 = ((1 : Nat) : Int) := by
  have hm : ∀ j, j < ([⟨"a", XNum.num 91⟩, ⟨"b", XNum.num 93⟩] : List Bracket).length →
      ∀ i, i < j → xltx (bmax [⟨"a", XNum.num 91⟩, ⟨"b", XNum.num 93⟩] i)
        (bmax [⟨"a", XNum.num 91⟩, ⟨"b", XNum.num 93⟩] j) = true := by decide
  exact ⟨hm,
    (c3_findBracket_correct [⟨"a", XNum.num 91⟩, ⟨"b", XNum.num 93⟩] 93 hm).2.2.1
      1 (by decide) 93 rfl⟩

/-- **C5**.  Bias Estimator definition: for every snapshot collection, row
set, window size and source name, the returned mapping at `name` is exactly the
arithmetic mean of the signed errors `actual − forecast` over all (selected
snapshot, qualifying row) pairs for that name — selected snapshots being those
with a numeric actual, limited to the first `windowSize` when positive —
and the name is absent (lookup `none`) when there are no such pairs. -/
theorem c5_computeBiases_mean (snaps : List Snapshot) (rows : List SRow) (w : Int) (name : String) :
    mget (computeBiases (some snaps) (some rows) w) name =
      (if biasPairs name snaps rows w = [] then none
       else some (((biasPairs name snaps rows w).map pairErr).sum
                    / ((biasPairs name snaps rows w).length : ℚ))) := by
  unfold computeBiases biasPairs
  dsimp only
  rw [nested_foldl_biasStep]
  set tk := (if 0 < w then (snaps.filter (fun s => s.actual.isSome)).take w.toNat
    else snaps.filter (fun s => s.actual.isSome)) with htk
  set P := tk.bind (fun s => rows.map (fun r => (s, r))) with hP
  set F := P.filter (biasCounts name) with hFdef
  obtain ⟨h1, h2⟩ := biasFold_mget name P ([], [])
  rw [← hFdef] at h1 h2
  rw [mget_map_total]
  rw [h1]
  by_cases hF : F = []
  · rw [if_pos hF, if_pos hF]
    rfl
  · rw [if_neg hF, if_neg hF]
    rw [if_neg hF] at h2
    have hlen : ((F.length : ℚ)) ≠ 0 := by
      have hne : F.length ≠ 0 := by simpa [List.length_eq_zero] using hF
      exact_mod_cast hne
    have hnil1 : mget (([] : List (String × ℚ)), ([] : List (String × ℚ))).1 name = none := rfl
    have hnil2 : mget (([] : List (String × ℚ)), ([] : List (String × ℚ))).2 name = none := rfl
    rw [hnil1]
    rw [hnil2] at h2
    simp only [Option.getD_none, Option.map_some']
    simp only [Option.getD_none] at h2
    rw [h2]
    rw [show (match some ((0:ℚ) + (F.length : ℚ)) with
        | some c => if c = 0 then 1 else c
        | none => 1) = if (0:ℚ) + (F.length : ℚ) = 0 then 1 else (0:ℚ) + (F.length : ℚ) from rfl]
    rw [if_neg (by simpa using hlen)]
    norm_num

/-- **C6 counterexample**: with two snapshots of actual 97 and one source "A"
forecasting 95 and 96, the Bias Estimator yields 1.5 for "A", not the +2 the
claim states. -/
theorem c6_counterexample :
    mget (computeBiases (some [⟨"s1", 0, some 97, [], []⟩, ⟨"s2", 1, some 97, [], []⟩])
      (some [⟨"A", some 95⟩, ⟨"A", some 96⟩]) 0) "A" ≠ some 2 := by
  rw [computeBiases_spec_example]
  simp [mget]
  norm_num

/-- **C6** (amended: the bias is +1.5, the exact mean of the signed errors, not
+2): the concrete Bias Estimator check of the spec evaluates to 3/2. -/
theorem c6_bias_value :
    mget (computeBiases (some [⟨"s1", 0, some 97, [], []⟩, ⟨"s2", 1, some 97, [], []⟩])
      (some [⟨"A", some 95⟩, ⟨"A", some 96⟩]) 0) "A" = some (3/2) := by
  rw [computeBiases_spec_example]
  simp [mget]

/-- **C7** (amended in its concrete example: `mae = 1.5` gives raw score
`1/(1.5+0.5) = 0.5` and weights 0.8/0.2, not 0.4 and 0.8333/0.1667).
`calculateAutoWeights` returns null when disabled, when the stats are missing
or empty; otherwise (for the nonnegative `mae` values the stats pipeline
produces) it returns the scores `1/(mae + 0.5)` normalized by their sum, and
the returned weights sum to 1.  (Over exact rationals the score sum of a
non-empty stats list is provably positive, so the code's zero/non-finite
fallback never fires.) -/
theorem c7_autoWeights (stats : List PStat) (useAuto : Bool)
    (hmae : ∀ r ∈ stats, 0 ≤ r.mae) :
    calculateAutoWeights (some stats) false = none ∧
    calculateAutoWeights none useAuto = none ∧
    calculateAutoWeights (some []) useAuto = none ∧
    (stats ≠ [] →
      calculateAutoWeights (some stats) true =
        some ((rawScores stats).map
          (fun p => (p.1, p.2 / ((rawScores stats).map Prod.snd).sum))) ∧
      (((calculateAutoWeights (some stats) true).getD []).map Prod.snd).sum = 1) := by
  refine ⟨by simp [calculateAutoWeights], by simp [calculateAutoWeights],
    by simp [calculateAutoWeights], ?_⟩
  intro hne
  have hpos := rawScores_sum_pos stats hmae hne
  have heq : calculateAutoWeights (some stats) true =
      some ((rawScores stats).map
        (fun p => (p.1, p.2 / ((rawScores stats).map Prod.snd).sum))) := by
    unfold calculateAutoWeights
    rw [if_neg (by simp)]
    dsimp only
    rw [if_neg hne]
    rw [foldl_scores_congr stats hmae []]
    rw [show (stats.foldl (fun m r => mset m r.source (1 / (r.mae + 1 / 2))) [])
        = rawScores stats from rfl]
    rw [if_neg (not_le.2 hpos)]
  refine ⟨heq, ?_⟩
  rw [heq]
  simp only [Option.getD_some, List.map_map]
  have hcomp : (Prod.snd ∘ fun p : String × ℚ =>
      (p.1, p.2 / ((rawScores stats).map Prod.snd).sum))
      = (fun p : String × ℚ => p.2 / ((rawScores stats).map Prod.snd).sum) := rfl
  rw [hcomp]
  have h2 : ((rawScores stats).map
        (fun p : String × ℚ => p.2 / ((rawScores stats).map Prod.snd).sum)).sum
      = (((rawScores stats).map Prod.snd).map
          (· / ((rawScores stats).map Prod.snd).sum)).sum := by
    rw [List.map_map]
    rfl
  rw [h2, sum_map_div, div_self (ne_of_gt hpos)]

/-- **C7 counterexample**: on sources with `mae = 0` and `mae = 3/2` the code
returns weights `[0.8, 0.2]`, not the claimed `0.8333/0.1667` (exactly
5/6 and 1/6). -/
theorem c7_counterexample :
    calculateAutoWeights (some [⟨"A", 0⟩, ⟨"B", 3/2⟩]) true ≠ some [("A", 5/6), ("B", 1/6)] ∧
    calculateAutoWeights (some [⟨"A", 0⟩, ⟨"B", 3/2⟩]) true = some [("A", 4/5), ("B", 1/5)] := by
  have hval : calculateAutoWeights (some [⟨"A", 0⟩, ⟨"B", 3/2⟩]) true
      = some [("A", 4/5), ("B", 1/5)] := by
    simp [calculateAutoWeights, mget, mset]
    norm_num
  refine ⟨?_, hval⟩
  rw [hval]
  simp

/-- Witness for C7 at the spec's concrete stats (mae 0 and 1.5). -/
theorem c7_autoWeights_witness :
    (∀ r ∈ ([⟨"A", 0⟩, ⟨"B", 3/2⟩] : List PStat), 0 ≤ r.mae) ∧
    calculateAutoWeights (some [⟨"A", 0⟩, ⟨"B", 3/2⟩]) true =
      some ((rawScores [⟨"A", 0⟩, ⟨"B", 3/2⟩]).map
        (fun p => (p.1, p.2 / ((rawScores [⟨"A", 0⟩, ⟨"B", 3/2⟩]).map Prod.snd).sum))) := by
  have hmae : ∀ r ∈ ([⟨"A", 0⟩, ⟨"B", 3/2⟩] : List PStat), 0 ≤ r.mae := by
    intro r hr
    rcases List.mem_cons.1 hr with rfl | hr2
    · norm_num
    · have : r = (⟨"B", 3/2⟩ : PStat) := by simpa using hr2
      subst this
      norm_num
  exact ⟨hmae, ((c7_autoWeights [⟨"A", 0⟩, ⟨"B", 3/2⟩] true hmae).2.2.2 (by simp)).1⟩

/-- **C8**.  Prior Blender identity and blend: `calculateBlendedProbs` returns
the fresh distribution unchanged whenever blending is disabled, no prior id is
chosen, the referenced snapshot is not found, or the prior's scheme is
incompatible (different length or any differing label); otherwise it returns
the element-wise mix `0.5*fresh + 0.5*prior` divided by that mix's sum, with
divisor 1 when the sum is zero. -/
theorem c8_blendedProbs (usePrior : Bool) (priorId : String) (baseProbs : List ℚ)
    (snapshots : List Snapshot) (scheme : List Bracket) :
    ((usePrior = false ∨ priorId = "" ∨
        snapshots.find? (fun s => s.id == priorId) = none ∨
        (∀ snap, snapshots.find? (fun s => s.id == priorId) = some snap →
          ¬ schemeCompatible snap.scheme scheme)) →
      calculateBlendedProbs usePrior priorId baseProbs snapshots scheme = baseProbs) ∧
    (∀ snap, snapshots.find? (fun s => s.id == priorId) = some snap →
      usePrior = true → priorId ≠ "" → schemeCompatible snap.scheme scheme →
      calculateBlendedProbs usePrior priorId baseProbs snapshots scheme =
        (let out := baseProbs.enum.map
           (fun p => 1 / 2 * p.2 + 1 / 2 * ((snap.probs.getD p.1 none).getD 0))
         out.map (fun v => v / (if out.sum = 0 then 1 else out.sum)))) := by
  constructor
  · intro hcase
    unfold calculateBlendedProbs
    by_cases hoff : ¬usePrior ∨ priorId = ""
    · rw [if_pos hoff]
    · rw [if_neg hoff]
      push_neg at hoff
      cases hfind : snapshots.find? (fun s => s.id == priorId) with
      | none => rfl
      | some snap =>
        dsimp only
        have hincomp : ¬ schemeCompatible snap.scheme scheme := by
          rcases hcase with h | h | h | h
          · rw [h] at hoff; simp at hoff
          · exact absurd h hoff.2
          · rw [h] at hfind; cases hfind
          · exact h snap hfind
        rw [if_pos]
        intro habs
        exact hincomp ((sameLabels_check_iff snap.scheme scheme).1 habs)
  · intro snap hfind hon hid hcompat
    unfold calculateBlendedProbs
    rw [if_neg (by rw [hon]; simp [hid])]
    rw [hfind]
    dsimp only
    rw [if_neg (by
      intro habs
      exact habs ((sameLabels_check_iff snap.scheme scheme).2 hcompat))]

/-- Witness for C8: identity on a disabled blend, and the 0.5/0.5 blend of
`[0, 1]` with prior `[1, 0]` on a label-compatible scheme giving `[1/2, 1/2]`. -/
theorem c8_blendedProbs_witness :
    calculateBlendedProbs false "x" [1] [] [] = [1] ∧
    calculateBlendedProbs true "p" [0, 1]
      [⟨"p", 0, none, [some 1, some 0], [⟨"a", XNum.num 1⟩, ⟨"b", XNum.inf⟩]⟩]
      [⟨"a", XNum.num 1⟩, ⟨"b", XNum.inf⟩] = [1/2, 1/2] := by
  constructor
  · exact (c8_blendedProbs false "x" [1] [] []).1 (Or.inl rfl)
  · have hfind : ([⟨"p", 0, none, [some 1, some 0],
          [⟨"a", XNum.num 1⟩, ⟨"b", XNum.inf⟩]⟩] : List Snapshot).find?
          (fun s => s.id == "p") =
        some ⟨"p", 0, none, [some 1, some 0], [⟨"a", XNum.num 1⟩, ⟨"b", XNum.inf⟩]⟩ := rfl
    have hcompat : schemeCompatible [⟨"a", XNum.num 1⟩, ⟨"b", XNum.inf⟩]
        [⟨"a", XNum.num 1⟩, ⟨"b", XNum.inf⟩] := ⟨rfl, fun i _ => rfl⟩
    have h := (c8_blendedProbs true "p" [0, 1] _ _).2 _ hfind rfl (by simp) hcompat
    rw [h]
    simp only [List.enum, List.enumFrom, List.map, List.getD_cons_zero, List.getD_cons_succ]
    norm_num


/-- **C4 (code bug)**: `calculateBlendedProbs` has no guard on its `snapshots`
argument; with blending enabled and a prior id chosen, a null/undefined
snapshot collection makes `snapshots.find(...)` throw a TypeError instead of
returning a best-effort value, contradicting the spec's "no operation in this
core is permitted to throw past its own boundary". -/
theorem c4_blended_throws :
    calculateBlendedProbsDyn true "p1" [1] none [] =
      Except.error "TypeError: cannot read snapshots.find of null or undefined" := by
  simp [calculateBlendedProbsDyn]

/-- **C9** (amended: the source filter only requires `probs` to be an array —
an empty `probs` array passes the filter, counts toward the total and can never
count correct).  `calculateAccuracy` filters to snapshots with a numeric actual
and a non-empty scheme, judges each by `bracketContainsActual` at the index of
maximum probability, and returns `correct/total*100` (0 when the total is 0);
the selected index is a first-occurrence-wins argmax of the coerced
probabilities. -/
theorem c9_accuracy (snaps : List Snapshot) :
    (calculateAccuracy (some snaps)).total
        = (snaps.filter (fun s => s.actual.isSome && decide (0 < s.scheme.length))).length ∧
    (calculateAccuracy (some snaps)).correct
        = ((snaps.filter (fun s => s.actual.isSome && decide (0 < s.scheme.length))).filter
            (fun s => decide (0 ≤ accMaxIdx s.probs) &&
              bracketContainsActual s.scheme (accMaxIdx s.probs) s.actual)).length ∧
    (calculateAccuracy (some snaps)).pct =
      (if (calculateAccuracy (some snaps)).total = 0 then 0
       else ((calculateAccuracy (some snaps)).correct : ℚ)
              / ((calculateAccuracy (some snaps)).total : ℚ) * 100) ∧
    (∀ probs : List (Option ℚ), probs ≠ [] →
      0 ≤ accMaxIdx probs ∧ (accMaxIdx probs).toNat < probs.length ∧
      (∀ j, j < probs.length → cval probs j ≤ cval probs (accMaxIdx probs).toNat) ∧
      (∀ j, j < (accMaxIdx probs).toNat → cval probs j < cval probs (accMaxIdx probs).toNat)) := by
  refine ⟨rfl, rfl, rfl, accMaxIdx_first_argmax⟩

/-- **C9 counterexample**: a snapshot with numeric actual, non-empty scheme but
*empty* probs array passes the code's filter — the code's total is 2 while the
claim's "non-empty probs" filter would keep only 1 snapshot. -/
theorem c9_counterexample :
    (calculateAccuracy (some
        [⟨"s", 0, some 93, [some (1/10), some (3/5), some (3/10)],
            [⟨"≤91", XNum.num 91⟩, ⟨"92–93", XNum.num 93⟩, ⟨"94+", XNum.inf⟩]⟩,
         ⟨"t", 0, some 5, [], [⟨"x", XNum.inf⟩]⟩])).total = 2 ∧
    (([⟨"s", 0, some 93, [some (1/10), some (3/5), some (3/10)],
            [⟨"≤91", XNum.num 91⟩, ⟨"92–93", XNum.num 93⟩, ⟨"94+", XNum.inf⟩]⟩,
       ⟨"t", 0, some 5, [], [⟨"x", XNum.inf⟩]⟩] : List Snapshot).filter
        (fun s => s.actual.isSome && decide (s.probs ≠ []) &&
          decide (0 < s.scheme.length))).length = 1 := by
  refine ⟨by decide, by decide⟩

/-- Witness for C9: the spec's concrete snapshot (probs `[0.1, 0.6, 0.3]`,
scheme `[≤91, 92–93, 94+]`, actual 93) counts correct, and the argmax facts
hold at its probs array. -/
theorem c9_accuracy_witness :
    calculateAccuracy (some [⟨"s", 0, some 93, [some (1/10), some (3/5), some (3/10)],
        [⟨"≤91", XNum.num 91⟩, ⟨"92–93", XNum.num 93⟩, ⟨"94+", XNum.inf⟩]⟩])
      = ⟨1, 1, 100⟩ ∧
    ([some (1/10), some (3/5), some (3/10)] : List (Option ℚ)) ≠ [] ∧
    (0 ≤ accMaxIdx [some (1/10), some (3/5), some (3/10)] ∧
      (accMaxIdx [some (1/10), some (3/5), some (3/10)]).toNat
        < ([some (1/10), some (3/5), some (3/10)] : List (Option ℚ)).length ∧
      (∀ j, j < ([some (1/10), some (3/5), some (3/10)] : List (Option ℚ)).length →
        cval [some (1/10), some (3/5), some (3/10)] j
          ≤ cval [some (1/10), some (3/5), some (3/10)]
              (accMaxIdx [some (1/10), some (3/5), some (3/10)]).toNat) ∧
      (∀ j, j < (accMaxIdx [some (1/10), some (3/5), some (3/10)]).toNat →
        cval [some (1/10), some (3/5), some (3/10)] j
          < cval [some (1/10), some (3/5), some (3/10)]
              (accMaxIdx [some (1/10), some (3/5), some (3/10)]).toNat)) := by
  refine ⟨?_, by simp, (c9_accuracy []).2.2.2 [some (1/10), some (3/5), some (3/10)] (by simp)⟩
  have h1 : accMaxIdx [some (1/10), some (3/5), some (3/10)] = 1 := by
    norm_num [accMaxIdx, accFold, List.range_succ, cval, botLt]
  have h2 : snapJudged ⟨"s", 0, some 93, [some (1/10), some (3/5), some (3/10)],
      [⟨"≤91", XNum.num 91⟩, ⟨"92–93", XNum.num 93⟩, ⟨"94+", XNum.inf⟩]⟩ = true := by
    rw [snapJudged]
    dsimp only
    rw [h1]
    norm_num [bracketContainsActual, bmax, xle, xlt]
  simp only [calculateAccuracy, Option.getD, List.filter, h2]
  norm_num [snapJudged]

/-- **C10** (amended: restricted to probs arrays all of whose entries are
numeric).  The two argmax implementations agree: for every non-empty list of
numeric probabilities, the scan of `calculateAccuracy` and the reduce of
`calculateAccuracyTrendData` select the same index. -/
theorem c10_argmax_equiv (qs : List ℚ) (hne : qs ≠ []) :
    accMaxIdx (qs.map some) = ((trendMaxIdx (qs.map some) : Nat) : Int) := by
  have hlen : 1 ≤ qs.length := by
    cases qs with
    | nil => exact absurd rfl hne
    | cons a l => simp
  obtain ⟨b, htr, hblt, hacc⟩ := trend_acc_agree qs qs.length hlen le_rfl
  unfold accMaxIdx trendMaxIdx
  simp only [List.length_map]
  rw [hacc, htr]

/-- **C10 counterexample**: on the non-empty probs array `[NaN, 1]` (a
non-numeric first entry), the scan of `calculateAccuracy` coerces `NaN` to 0 and
selects index 1, while the reduce of `calculateAccuracyTrendData` compares
against `NaN` (always false) and stays at index 0. -/
theorem c10_counterexample :
    ([none, some 1] : List (Option ℚ)) ≠ [] ∧
    accMaxIdx [none, some 1] = 1 ∧
    trendMaxIdx [none, some 1] = 0 ∧
    accMaxIdx [none, some 1] ≠ ((trendMaxIdx [none, some 1] : Nat) : Int) := by
  refine ⟨by simp, by decide, by decide, by decide⟩

/-- Witness for C10 on the all-numeric probs `[0.1, 0.6, 0.3]`. -/
theorem c10_argmax_equiv_witness :
    ([1/10, 3/5, 3/10] : List ℚ) ≠ [] ∧
    accMaxIdx (([1/10, 3/5, 3/10] : List ℚ).map some) =
      ((trendMaxIdx (([1/10, 3/5, 3/10] : List ℚ).map some) : Nat) : Int) := by
  exact ⟨by simp, c10_argmax_equiv [1/10, 3/5, 3/10] (by simp)⟩


end Calc
